import Mathlib

/-!
# Shallow embedding of the undo/redo editor

This file embeds the two source files of the repository:

* `src/lib/hooks/use-undo-redo.tsx` — a two-sided undo stack (`past`/`future`)
  of actions with `push` (immediate-execute), `pushManualAction`, `undo`,
  `redo`, `clear`, `undoAvailable`, `redoAvailable`;
* `src/components/editor.tsx` — the editor component: live `text` state,
  `historyRef` (in-memory log), two localStorage keys
  (`textbox-content`, `textbox-history`), the mount-time load effect,
  `updateText` (commit), `handleClear`, `handleClearStorage`, plus the
  undo/redo delegates.

Every action closure created by the program has one of three concrete shapes,
so actions are defunctionalized into a first-order `UndoAction` type whose
`runDo`/`runUndo` interpretations transcribe the corresponding closures from
the source.  The captured arguments are `structuredClone`d strings in the
source; strings are immutable values here, so capture-by-value is the plain
constructor field.

A crucial transcription detail: `push(doFn, undoFn, ...withArgumentsToClone)`
invokes both `doFn(...clonedArgs)` and `undoFn(...clonedArgs)` with the SAME
cloned argument list.  In the load effect the call is
`pushAction((text) => setText(text), (text) => setText(text), newText, oldText)`
and in `handleClear` it is
`pushAction(() => setText(""), (text) => setText(text), "", oldText)`;
in both, the undo closure declares a single parameter, so at run time it
receives the FIRST cloned argument (`newText`, resp. `""`), and the trailing
`oldText` argument is never read. `runUndo` transcribes exactly that.
-/

/-- Defunctionalized actions. Each constructor records one closure shape the
program pushes, together with the values cloned at push time.

* `replay newText oldText` — pushed by the load effect:
  `pushAction((text) => setText(text), (text) => setText(text), newText, oldText)`.
* `manual newText oldText` — pushed by `updateText` via `pushManualAction`
  with zero-argument closures capturing `newText` / `oldText`.
* `clearAct oldText` — pushed by `handleClear`:
  `pushAction(() => setText(""), (text) => {...}, "", oldText)`; the cloned
  argument list is `["", oldText]`. -/
inductive UndoAction where
  | replay (newText oldText : String)
  | manual (newText oldText : String)
  | clearAct (oldText : String)
deriving DecidableEq

/-- The whole mutable state visible to the two source files:
the React `text` state, `historyRef.current`, the two localStorage keys,
the `isUndoRedoOperation` reentrancy ref, and the undo stack's two arrays.
`storedHistory = some l` models the key holding `JSON.stringify l`;
`none` models an absent key. -/
structure EditorState where
  text : String
  history : List String
  storedContent : Option String
  storedHistory : Option (List String)
  isUndoRedoOperation : Bool
  past : List UndoAction
  future : List UndoAction
deriving DecidableEq

/-- `setText` of the React state. -/
def setText (t : String) (s : EditorState) : EditorState := { s with text := t }

/-- Assignment to `isUndoRedoOperation.current`. -/
def setFlag (b : Bool) (s : EditorState) : EditorState :=
  { s with isUndoRedoOperation := b }

/-- `saveHistoryToStorage(history)`: `localStorage.setItem("textbox-history",
JSON.stringify(history))`. -/
def saveHistoryToStorage (h : List String) (s : EditorState) : EditorState :=
  { s with storedHistory := some h }

/-- `action.doWithData()` for each closure shape: every `do` closure sets the
reentrancy flag, sets the text, and resets the flag. The `clearAct` do-closure
is `() => setText("")` (its cloned arguments are ignored). -/
def runDo : UndoAction → EditorState → EditorState
  | .replay newText _oldText, s => setFlag false (setText newText (setFlag true s))
  | .manual newText _oldText, s => setFlag false (setText newText (setFlag true s))
  | .clearAct _oldText, s => setFlag false (setText "" (setFlag true s))

/-- `action.undoWithData()` for each closure shape.

* `replay`: the undo closure `(text) => setText(text)` is applied to
  `(newText, oldText)`, so `text = newText` — it sets the NEW value.
* `manual`: the zero-argument closure captures `oldText` and sets it.
* `clearAct`: the undo closure `(text) => { setText(text); historyRef.current
  = [...historyRef.current, text]; saveHistoryToStorage(...) }` is applied to
  `("", oldText)`, so `text = ""`: it sets the empty string and appends `""`
  to the log. -/
def runUndo : UndoAction → EditorState → EditorState
  | .replay newText _oldText, s => setFlag false (setText newText (setFlag true s))
  | .manual _newText oldText, s => setFlag false (setText oldText (setFlag true s))
  | .clearAct _oldText, s =>
      let s := setFlag false (setText "" (setFlag true s))
      let restoredHistory := s.history ++ [""]
      saveHistoryToStorage restoredHistory { s with history := restoredHistory }

/-- `UndoStack.push` (the immediate-execute form used by `pushAction`):
builds the action, runs `action.doWithData()` synchronously, appends it to
`past`, and empties `future` (`future.length = 0`). -/
def stackPush (a : UndoAction) (s : EditorState) : EditorState :=
  let s := runDo a s
  { s with past := s.past ++ [a], future := [] }

/-- `pushManualAction`: records the action on `past` WITHOUT executing it,
and empties `future`. -/
def pushManualAction (a : UndoAction) (s : EditorState) : EditorState :=
  { s with past := s.past ++ [a], future := [] }

/-- `UndoStack.undo`: `past.pop()`; if an action came off, run its
`undoWithData()` and `future.unshift(action)`; otherwise do nothing. -/
def undo (s : EditorState) : EditorState :=
  match s.past.getLast? with
  | none => s
  | some a =>
      let s1 := { s with past := s.past.dropLast }
      let s2 := runUndo a s1
      { s2 with future := a :: s2.future }

/-- `UndoStack.redo`: `future.shift()`; if an action came off, run its
`doWithData()` and `past.push(action)`; otherwise do nothing. -/
def redo (s : EditorState) : EditorState :=
  match s.future with
  | [] => s
  | a :: rest =>
      let s1 := { s with future := rest }
      let s2 := runDo a s1
      { s2 with past := s2.past ++ [a] }

/-- `UndoStack.clear`: empties both arrays and returns `true`. -/
def stackClear (s : EditorState) : EditorState × Bool :=
  ({ s with past := [], future := [] }, true)

/-- The hook's `clear` callback: calls `UndoStack.clear`, discarding the
returned boolean. -/
def clearUndoStack (s : EditorState) : EditorState := (stackClear s).1

/-- `undoAvailable` getter: `past.length > 0`, recomputed from the array. -/
def undoAvailable (s : EditorState) : Bool := s.past.length > 0

/-- `redoAvailable` getter: `future.length > 0`, recomputed from the array. -/
def redoAvailable (s : EditorState) : Bool := s.future.length > 0

/-- `updateText(newText, oldText)`: when inside an undo/redo-applied mutation
only the text is set; otherwise set the text, append `newText` to the log,
persist the log, and record a manual action whose do/undo closures capture
`newText` / `oldText`. -/
def updateText (newText oldText : String) (s : EditorState) : EditorState :=
  if s.isUndoRedoOperation then setText newText s
  else
    let s := setText newText s
    let newHistory := s.history ++ [newText]
    let s := saveHistoryToStorage newHistory { s with history := newHistory }
    pushManualAction (.manual newText oldText) s

/-- `handleTextChange`: a user edit commits the new value with the current
live value as the paired old value. -/
def commit (newText : String) (s : EditorState) : EditorState :=
  updateText newText s.text s

/-- `handleClear`: set the text to `""`, reset the log to `[""]` and persist
it, clear the undo stack, then `pushAction(() => setText(""), (text) => {...},
"", oldText)` — an immediate-execute push of a `clearAct` action. -/
def handleClear (s : EditorState) : EditorState :=
  let oldText := s.text
  let s := setText "" s
  let s := saveHistoryToStorage [""] { s with history := [""] }
  let s := clearUndoStack s
  stackPush (.clearAct oldText) s

/-- The default placeholder string `handleClearStorage` installs. -/
def defaultText : String :=
  "Type something here to test undo/redo functionality..."

/-- `handleClearStorage` (hard reset): remove both localStorage keys, set the
text to the default placeholder, reset the log to a single default entry, and
clear the undo stack. Nothing is pushed, so it is not undoable. -/
def handleClearStorage (s : EditorState) : EditorState :=
  let s := { s with storedContent := none, storedHistory := none }
  let s := setText defaultText s
  let s := { s with history := [defaultText] }
  clearUndoStack s

/-- What `localStorage.getItem("textbox-history")` + `JSON.parse` yields:
the key is absent, or present but un-parseable (`JSON.parse` throws), or
parses to a string list. -/
inductive HistoryRead where
  | absent
  | malformed
  | parsed (history : List String)
deriving DecidableEq

/-- The mount-time load effect. `initialText = savedText || ""` (both `null`
and `""` give `""`, which `Option.getD ""` reproduces). If the history key
parses, `historyRef` is set to the parsed list and each consecutive pair
`(history[i-1], history[i])`, for `i = 1..N-1` ascending, is pushed with
`pushAction` — the immediate-execute form, which runs each action's
`doWithData()` during the replay. The source guards the loop with
`history.length > 1`; for shorter lists `history.zip history.tail` is empty,
so the fold is the same function. On an absent key or a parse failure,
`historyRef` falls back to `[initialText]` and nothing is pushed.
The effect only reads the store, so both keys keep their loaded contents
(the un-parseable blob of `malformed` is not representable in
`storedHistory`; no subsequent operation reads it, only overwrites it). -/
def loadEffect (savedText : Option String) (savedHistory : HistoryRead) :
    EditorState :=
  let initialText := savedText.getD ""
  let s : EditorState :=
    { text := initialText
      history := []
      storedContent := savedText
      storedHistory := match savedHistory with
        | .parsed l => some l
        | _ => none
      isUndoRedoOperation := false
      past := []
      future := [] }
  match savedHistory with
  | .parsed history =>
      let s := { s with history := history }
      (history.zip history.tail).foldl
        (fun s p => stackPush (.replay p.2 p.1) s) s
  | .malformed => { s with history := [initialText] }
  | .absent => { s with history := [initialText] }

/-- A replay of the persisted log as the SPEC describes it in §4.2: the same
consecutive pairs, in the same order, but recorded as manual-push actions,
"recorded without executing their forward procedure". This definition follows
the spec's words, not the source, and exists only to be compared with
`loadEffect`, whose replay uses the immediate-execute `pushAction`. -/
def loadEffectSpecManualReplay (savedText : Option String)
    (savedHistory : HistoryRead) : EditorState :=
  let initialText := savedText.getD ""
  let s : EditorState :=
    { text := initialText
      history := []
      storedContent := savedText
      storedHistory := match savedHistory with
        | .parsed l => some l
        | _ => none
      isUndoRedoOperation := false
      past := []
      future := [] }
  match savedHistory with
  | .parsed history =>
      let s := { s with history := history }
      (history.zip history.tail).foldl
        (fun s p => pushManualAction (.replay p.2 p.1) s) s
  | .malformed => { s with history := [initialText] }
  | .absent => { s with history := [initialText] }

/-- A sequence of user commits, oldest first. -/
def commits (cs : List String) (s : EditorState) : EditorState :=
  cs.foldl (fun s c => commit c s) s

/-- `n` presses of the undo button. -/
def undos : Nat → EditorState → EditorState
  | 0, s => s
  | n + 1, s => undo (undos n s)

/-- The manual actions a commit sequence pushes: committing `c :: cs` from
live value `t` pushes `manual c t` and then the chain for `cs` from `c`. -/
def manualChain : String → List String → List UndoAction
  | _, [] => []
  | t, c :: cs => .manual c t :: manualChain c cs

/-! ## Basic operation lemmas -/

/-- `undo` on an empty `past` array does nothing. -/
theorem undo_of_past_nil (s : EditorState) (h : s.past = []) : undo s = s := by
  unfold undo
  rw [h]
  rfl

/-- `redo` on an empty `future` array does nothing. -/
theorem redo_of_future_nil (s : EditorState) (h : s.future = []) : redo s = s := by
  unfold redo
  rw [h]

/-- `undo` on a non-empty `past`: pop the last action, run its undo
procedure, unshift it onto `future`. -/
theorem undo_eq_of_past (s : EditorState) (p : List UndoAction) (a : UndoAction)
    (h : s.past = p ++ [a]) :
    undo s =
      { runUndo a { s with past := p } with
        future := a :: (runUndo a { s with past := p }).future } := by
  unfold undo
  rw [h, List.getLast?_concat, List.dropLast_concat]

/-- A commit outside an undo/redo-applied mutation: set the text, extend and
persist the log, record a manual action, empty `future`. -/
theorem commit_eq (v : String) (s : EditorState)
    (h : s.isUndoRedoOperation = false) :
    commit v s =
      { s with text := v
               history := s.history ++ [v]
               storedHistory := some (s.history ++ [v])
               past := s.past ++ [UndoAction.manual v s.text]
               future := [] } := by
  simp [commit, updateText, h, setText, saveHistoryToStorage, pushManualAction]

/-- Committing never changes the reentrancy flag. -/
theorem commit_flag (v : String) (s : EditorState) :
    (commit v s).isUndoRedoOperation = s.isUndoRedoOperation := by
  cases hf : s.isUndoRedoOperation <;>
    simp [commit, updateText, hf, setText, saveHistoryToStorage,
      pushManualAction]

/-- A commit always sets the live value to the committed value. -/
theorem commit_text (v : String) (s : EditorState) : (commit v s).text = v := by
  cases hf : s.isUndoRedoOperation <;>
    simp [commit, updateText, hf, setText, saveHistoryToStorage,
      pushManualAction]

/-- A commit outside a reentrant mutation empties `future`. -/
theorem commit_future (v : String) (s : EditorState)
    (h : s.isUndoRedoOperation = false) : (commit v s).future = [] := by
  rw [commit_eq v s h]

/-- A commit sequence never changes the reentrancy flag. -/
theorem commits_flag (cs : List String) : ∀ s : EditorState,
    (commits cs s).isUndoRedoOperation = s.isUndoRedoOperation := by
  induction cs with
  | nil => intro s; rfl
  | cons c cs ih => intro s; rw [show commits (c :: cs) s = commits cs (commit c s) from rfl, ih, commit_flag]

/-- A commit sequence appends exactly the chain of manual actions pairing
each committed value with the live value it replaced. -/
theorem commits_past (cs : List String) : ∀ s : EditorState,
    s.isUndoRedoOperation = false →
    (commits cs s).past = s.past ++ manualChain s.text cs := by
  induction cs with
  | nil => intro s _; simp [commits, manualChain]
  | cons c cs ih =>
      intro s h
      rw [show commits (c :: cs) s = commits cs (commit c s) from rfl,
        ih (commit c s) (by rw [commit_flag]; exact h), commit_eq c s h]
      simp [manualChain]

/-- The length of a manual-action chain is the number of commits. -/
theorem manualChain_length (cs : List String) : ∀ t : String,
    (manualChain t cs).length = cs.length := by
  induction cs with
  | nil => intro t; rfl
  | cons c cs ih => intro t; simp [manualChain, ih]

/-- Undoing a commit sequence in full restores the live value and the `past`
array to their pre-sequence state, and leaves the flag lowered. -/
theorem undos_commits (cs : List String) : ∀ s : EditorState,
    s.isUndoRedoOperation = false →
    (undos cs.length (commits cs s)).text = s.text ∧
    (undos cs.length (commits cs s)).past = s.past ∧
    (undos cs.length (commits cs s)).isUndoRedoOperation = false := by
  induction cs with
  | nil => intro s h; exact ⟨rfl, rfl, h⟩
  | cons c cs ih =>
      intro s h
      obtain ⟨ht, hp, hfl⟩ := ih (commit c s) (by rw [commit_flag]; exact h)
      have hpast : (undos cs.length (commits cs (commit c s))).past =
          s.past ++ [UndoAction.manual c s.text] := by
        rw [hp, commit_eq c s h]
      have hstep : undos (c :: cs).length (commits (c :: cs) s) =
          undo (undos cs.length (commits cs (commit c s))) := rfl
      rw [hstep, undo_eq_of_past _ _ _ hpast]
      refine ⟨?_, ?_, ?_⟩ <;> simp [runUndo, setFlag, setText]

/-- Undoing only the `ds`-suffix of a commit sequence leaves `past` holding
the manual chain of the `cs`-prefix. -/
theorem undos_commits_append (cs ds : List String) : ∀ s : EditorState,
    s.isUndoRedoOperation = false →
    (undos ds.length (commits (cs ++ ds) s)).past =
      s.past ++ manualChain s.text cs := by
  intro s h
  have hsplit : commits (cs ++ ds) s = commits ds (commits cs s) := by
    simp [commits, List.foldl_append]
  rw [hsplit]
  obtain ⟨-, hp, -⟩ :=
    undos_commits ds (commits cs s) (by rw [commits_flag]; exact h)
  rw [hp, commits_past cs s h]

/-! ## Replay (load effect) lemmas -/

/-- `getLast?.getD` steps past a cons cell. -/
theorem getLastD_cons (l : List String) : ∀ a d : String,
    (a :: l).getLast?.getD d = l.getLast?.getD a := by
  induction l with
  | nil => intro a d; rfl
  | cons b l ih =>
      intro a d
      rw [List.getLast?_cons_cons, ih b d, ih b a]

/-- When a list is non-empty, the default of `getLast?.getD` is irrelevant. -/
theorem getLastD_of_ne_nil (l : List String) (h : l ≠ []) (d₁ d₂ : String) :
    l.getLast?.getD d₁ = l.getLast?.getD d₂ := by
  cases l with
  | nil => exact absurd rfl h
  | cons a l =>
      cases hl : (a :: l).getLast? with
      | none => exact absurd (List.getLast?_eq_none_iff.mp hl) (by simp)
      | some x => rfl

/-- Folding immediate-execute pushes of replay actions over a pair list
appends exactly the corresponding actions to `past` and keeps `future`
empty. -/
theorem replayFold_past (ps : List (String × String)) : ∀ s : EditorState,
    s.future = [] →
    (ps.foldl (fun s p => stackPush (.replay p.2 p.1) s) s).past =
      s.past ++ ps.map (fun p => UndoAction.replay p.2 p.1) ∧
    (ps.foldl (fun s p => stackPush (.replay p.2 p.1) s) s).future = [] := by
  induction ps with
  | nil => intro s h; exact ⟨by simp, h⟩
  | cons p ps ih =>
      intro s _
      obtain ⟨h1, h2⟩ := ih (stackPush (.replay p.2 p.1) s) rfl
      refine ⟨?_, by rw [List.foldl_cons]; exact h2⟩
      rw [List.foldl_cons, h1]
      simp [stackPush, runDo, setFlag, setText]

/-- Each immediate-execute replay push runs the forward procedure, so the
live value after the fold is the last pushed `newText` (or the starting
value when nothing is pushed). -/
theorem replayFold_text (ps : List (String × String)) : ∀ s : EditorState,
    (ps.foldl (fun s p => stackPush (.replay p.2 p.1) s) s).text =
      (ps.map Prod.snd).getLast?.getD s.text := by
  induction ps with
  | nil => intro s; rfl
  | cons p ps ih =>
      intro s
      rw [List.foldl_cons, ih,
        show (stackPush (.replay p.2 p.1) s).text = p.2 from rfl,
        List.map_cons, getLastD_cons]

/-- The load effect on a parseable history key, unfolded. -/
theorem loadEffect_parsed (savedText : Option String) (l : List String) :
    loadEffect savedText (HistoryRead.parsed l) =
      (l.zip l.tail).foldl (fun s p => stackPush (.replay p.2 p.1) s)
        { text := savedText.getD ""
          history := l
          storedContent := savedText
          storedHistory := some l
          isUndoRedoOperation := false
          past := []
          future := [] } := rfl

/-! ## Claim theorems -/

/-- C1: the claim says that after `commit(v)` and `clearContent()`, `undo()`
restores the live value to `v` and re-appends it to the log. The code does
not: the clear action's undo closure receives the first cloned argument
`""` (not the captured prior value), so with `v = "hello"` in a fresh
session the live value after undo is `""` and the log is `["", ""]`. -/
theorem c1_clear_undo_sets_empty :
    (undo (handleClear (commit "hello" (loadEffect none HistoryRead.absent)))).text
      = "" ∧
    (undo (handleClear (commit "hello" (loadEffect none HistoryRead.absent)))).history
      = ["", ""] ∧
    ("" : String) ≠ "hello" := by
  refine ⟨rfl, rfl, by decide⟩

/-- C2: the claim says that after loading the persisted log
`["", "a", "ab", "abc"]`, three undos yield live values `"ab"`, `"a"`, `""`.
The code's replayed actions undo to their own NEW value (the undo closure
receives the first cloned argument), so the three undos actually yield
`"abc"`, `"ab"`, `"a"`; only the fourth-undo-is-a-no-op part holds. -/
theorem c2_reconstructed_undo_yields_new_values :
    (undos 1 (loadEffect (some "abc")
      (HistoryRead.parsed ["", "a", "ab", "abc"]))).text = "abc" ∧
    (undos 2 (loadEffect (some "abc")
      (HistoryRead.parsed ["", "a", "ab", "abc"]))).text = "ab" ∧
    (undos 3 (loadEffect (some "abc")
      (HistoryRead.parsed ["", "a", "ab", "abc"]))).text = "a" ∧
    undos 4 (loadEffect (some "abc")
      (HistoryRead.parsed ["", "a", "ab", "abc"])) =
      undos 3 (loadEffect (some "abc")
        (HistoryRead.parsed ["", "a", "ab", "abc"])) ∧
    ("abc" : String) ≠ "ab" := by
  refine ⟨rfl, rfl, rfl, by decide, by decide⟩

/-- C3 counterexample: the claim says the load effect records the replayed
pairs as manual-push actions, "recorded without executing their forward
procedure". `loadEffectSpecManualReplay` is that spec-described behavior; the
source's `loadEffect` uses the immediate-execute `pushAction` instead, and
the two differ observably: with persisted content `"x"` and log
`["", "a"]`, the code's replay executes the forward procedures and leaves
the live value `"a"`, while the spec's manual replay would leave `"x"`. -/
theorem c3_replay_executes_forward :
    (loadEffect (some "x") (HistoryRead.parsed ["", "a"])).text = "a" ∧
    (loadEffectSpecManualReplay (some "x")
      (HistoryRead.parsed ["", "a"])).text = "x" ∧
    ("a" : String) ≠ "x" := by
  refine ⟨rfl, rfl, by decide⟩

/-- C3 (amended): when the load effect finds a parseable persisted log of
length N, it records the pairs (value at index i−1, value at index i) for
i = 1..N−1, in ascending order, as immediate-execute pushes — each action's
forward procedure runs during the replay, so for N ≥ 2 the live value ends
at the last log entry — and afterwards the stack's executed sequence has
exactly N−1 actions mirroring the edit history while the reversed sequence
is empty. -/
theorem c3_replay_pairs_recorded (savedText : Option String)
    (l : List String) :
    (loadEffect savedText (HistoryRead.parsed l)).past =
      (l.zip l.tail).map (fun p => UndoAction.replay p.2 p.1) ∧
    (loadEffect savedText (HistoryRead.parsed l)).future = [] ∧
    (loadEffect savedText (HistoryRead.parsed l)).past.length =
      l.length - 1 ∧
    (2 ≤ l.length →
      (loadEffect savedText (HistoryRead.parsed l)).text =
        l.getLast?.getD "") := by
  rw [loadEffect_parsed]
  obtain ⟨hp, hf⟩ := replayFold_past (l.zip l.tail)
    { text := savedText.getD ""
      history := l
      storedContent := savedText
      storedHistory := some l
      isUndoRedoOperation := false
      past := []
      future := [] } rfl
  refine ⟨by rw [hp]; simp, hf, ?_, ?_⟩
  · rw [hp]
    simp only [List.nil_append, List.length_map, List.length_zip,
      List.length_tail]
    omega
  · intro h2
    rw [replayFold_text,
      List.map_snd_zip l l.tail (by rw [List.length_tail]; omega)]
    match l, h2 with
    | x :: y :: r, _ =>
      rw [List.tail_cons, getLastD_cons (y :: r) x ""]
      exact getLastD_of_ne_nil (y :: r) (by simp) _ _

/-- C3 witness: the amended replay claim at persisted content `"x"` and
log `["", "a"]`. -/
theorem c3_replay_pairs_recorded_witness :
    2 ≤ (["", "a"] : List String).length ∧
    (loadEffect (some "x") (HistoryRead.parsed ["", "a"])).text =
      (["", "a"] : List String).getLast?.getD "" :=
  ⟨by decide,
    (c3_replay_pairs_recorded (some "x") ["", "a"]).2.2.2 (by decide)⟩

/-- C4: from any state with an empty executed sequence, a flag at rest and
any live value, committing c1..cn (n ≥ 1) and then undoing n times returns
the live value to its pre-c1 state; `undoAvailable` is still true after each
of the first n−1 undos and becomes false only after exactly n undos. -/
theorem c4_full_undo_restores_initial (cs : List String) (s : EditorState)
    (_hne : cs ≠ []) (hpast : s.past = [])
    (hflag : s.isUndoRedoOperation = false) :
    (undos cs.length (commits cs s)).text = s.text ∧
    undoAvailable (undos cs.length (commits cs s)) = false ∧
    ∀ k, k < cs.length → undoAvailable (undos k (commits cs s)) = true := by
  obtain ⟨ht, hp, -⟩ := undos_commits cs s hflag
  refine ⟨ht, by simp [undoAvailable, hp, hpast], ?_⟩
  intro k hk
  have hsplit : cs.take (cs.length - k) ++ cs.drop (cs.length - k) = cs :=
    List.take_append_drop _ _
  have hd : (cs.drop (cs.length - k)).length = k := by
    rw [List.length_drop]
    omega
  have h := undos_commits_append (cs.take (cs.length - k))
    (cs.drop (cs.length - k)) s hflag
  rw [hsplit, hd, hpast] at h
  simp only [undoAvailable, h, List.nil_append, manualChain_length,
    List.length_take]
  simp only [gt_iff_lt, decide_eq_true_eq]
  omega

/-- C4 witness: a single commit `"a"` in a fresh session. -/
theorem c4_full_undo_restores_initial_witness :
    (undos 1 (commits ["a"] (loadEffect none HistoryRead.absent))).text =
      (loadEffect none HistoryRead.absent).text ∧
    undoAvailable
      (undos 1 (commits ["a"] (loadEffect none HistoryRead.absent))) = false :=
  ⟨(c4_full_undo_restores_initial ["a"] (loadEffect none HistoryRead.absent)
      (by decide) rfl rfl).1,
    (c4_full_undo_restores_initial ["a"] (loadEffect none HistoryRead.absent)
      (by decide) rfl rfl).2.1⟩

/-- C5: both push forms empty the `future` (redo) array, and in the scenario
commit(a), commit(b), undo(), commit(c) — run with the reentrancy flag at
rest — `redoAvailable` is false and `redo()` is a no-op. -/
theorem c5_push_empties_future (a : UndoAction) (va vb vc : String)
    (s : EditorState) (h : s.isUndoRedoOperation = false) :
    (stackPush a s).future = [] ∧
    (pushManualAction a s).future = [] ∧
    redoAvailable (commit vc (undo (commit vb (commit va s)))) = false ∧
    redo (commit vc (undo (commit vb (commit va s)))) =
      commit vc (undo (commit vb (commit va s))) := by
  have h1 : (commit va s).isUndoRedoOperation = false := by
    rw [commit_flag]; exact h
  have hpast : (commit vb (commit va s)).past =
      (commit va s).past ++ [UndoAction.manual vb (commit va s).text] := by
    rw [commit_eq vb (commit va s) h1]
  have h2 : (undo (commit vb (commit va s))).isUndoRedoOperation = false := by
    rw [undo_eq_of_past _ _ _ hpast]
    simp [runUndo, setFlag, setText]
  have h3 : (commit vc (undo (commit vb (commit va s)))).future = [] :=
    commit_future vc _ h2
  exact ⟨rfl, rfl, by simp [redoAvailable, h3], redo_of_future_nil _ h3⟩

/-- C5 witness: the scenario at concrete values in a fresh session. -/
theorem c5_push_empties_future_witness :
    (stackPush (UndoAction.manual "x" "y")
      (loadEffect none HistoryRead.absent)).future = [] ∧
    redoAvailable (commit "c" (undo (commit "b" (commit "a"
      (loadEffect none HistoryRead.absent))))) = false :=
  ⟨(c5_push_empties_future (UndoAction.manual "x" "y") "a" "b" "c"
      (loadEffect none HistoryRead.absent) rfl).1,
    (c5_push_empties_future (UndoAction.manual "x" "y") "a" "b" "c"
      (loadEffect none HistoryRead.absent) rfl).2.2.1⟩

/-- C6: with the reentrancy flag at rest, commit(v), undo(), redo() leaves
the live value equal to v and the executed/reversed lengths equal to their
values immediately after commit(v). -/
theorem c6_undo_redo_roundtrip (v : String) (s : EditorState)
    (h : s.isUndoRedoOperation = false) :
    (redo (undo (commit v s))).text = v ∧
    (redo (undo (commit v s))).past.length = (commit v s).past.length ∧
    (redo (undo (commit v s))).future.length = (commit v s).future.length := by
  have hpast : (commit v s).past =
      s.past ++ [UndoAction.manual v s.text] := by
    rw [commit_eq v s h]
  have hroundtrip : redo (undo (commit v s)) = commit v s := by
    rw [undo_eq_of_past _ _ _ hpast, commit_eq v s h]
    simp [redo, runUndo, runDo, setFlag, setText]
    exact h
  exact ⟨by rw [hroundtrip, commit_text], by rw [hroundtrip],
    by rw [hroundtrip]⟩

/-- C6 witness: commit `"v"` in a fresh session, then undo and redo. -/
theorem c6_undo_redo_roundtrip_witness :
    (redo (undo (commit "v" (loadEffect none HistoryRead.absent)))).text = "v" :=
  (c6_undo_redo_roundtrip "v" (loadEffect none HistoryRead.absent) rfl).1

/-- C7: when the persisted log blob fails to parse while the persisted
content is `"hello"`, initialization completes without surfacing a failure:
the live value is `"hello"`, `undoAvailable` is false, and the in-memory
log falls back to the single entry `["hello"]`. -/
theorem c7_malformed_history_fallback :
    (loadEffect (some "hello") HistoryRead.malformed).text = "hello" ∧
    undoAvailable (loadEffect (some "hello") HistoryRead.malformed) = false ∧
    (loadEffect (some "hello") HistoryRead.malformed).history = ["hello"] := by
  refine ⟨rfl, rfl, rfl⟩

/-- C8: from any prior state, `handleClearStorage` (hard reset) removes both
persisted keys, sets the live value to the default placeholder, resets the
in-memory log to that single default entry, clears both sides of the stack
— so `undoAvailable` is false and a subsequent `undo()` is a no-op. -/
theorem c8_hard_reset_not_undoable (s : EditorState) :
    undo (handleClearStorage s) = handleClearStorage s ∧
    (handleClearStorage s).storedContent = none ∧
    (handleClearStorage s).storedHistory = none ∧
    (handleClearStorage s).text = defaultText ∧
    (handleClearStorage s).history = [defaultText] ∧
    (handleClearStorage s).past = [] ∧
    (handleClearStorage s).future = [] ∧
    undoAvailable (handleClearStorage s) = false :=
  ⟨undo_of_past_nil _ rfl, rfl, rfl, rfl, rfl, rfl, rfl, rfl⟩

/-- C9: the stack operations are total: `undo` with an empty executed
sequence and `redo` with an empty reversed sequence are no-ops that leave
the whole state (both sequences and the live value) unchanged, and `clear`
always succeeds (returns true). -/
theorem c9_operations_total (s : EditorState) :
    (s.past = [] → undo s = s) ∧
    (s.future = [] → redo s = s) ∧
    (stackClear s).2 = true :=
  ⟨undo_of_past_nil s, redo_of_future_nil s, rfl⟩

/-- C9 witness: a fresh session has both sequences empty. -/
theorem c9_operations_total_witness :
    undo (loadEffect none HistoryRead.absent) =
      loadEffect none HistoryRead.absent ∧
    redo (loadEffect none HistoryRead.absent) =
      loadEffect none HistoryRead.absent :=
  ⟨(c9_operations_total (loadEffect none HistoryRead.absent)).1 rfl,
    (c9_operations_total (loadEffect none HistoryRead.absent)).2.1 rfl⟩

/-- C10: after the load effect parses a persisted log of at least two
entries, the live value equals the last log entry regardless of the
separately persisted content value, because each replayed action's forward
procedure is executed during reconstruction. -/
theorem c10_replay_sets_last_entry (savedText : Option String)
    (l : List String) (h : 2 ≤ l.length) :
    (loadEffect savedText (HistoryRead.parsed l)).text =
      l.getLast?.getD "" := by
  rw [loadEffect_parsed, replayFold_text,
    List.map_snd_zip l l.tail (by rw [List.length_tail]; omega)]
  match l, h with
  | x :: y :: r, _ =>
    rw [List.tail_cons, getLastD_cons (y :: r) x ""]
    exact getLastD_of_ne_nil (y :: r) (by simp) _ _

/-- C10 witness: log `["", "a"]` with persisted content `"x"` yields live
value `"a"`. -/
theorem c10_replay_sets_last_entry_witness :
    2 ≤ (["", "a"] : List String).length ∧
    (loadEffect (some "x") (HistoryRead.parsed ["", "a"])).text =
      (["", "a"] : List String).getLast?.getD "" :=
  ⟨by decide, c10_replay_sets_last_entry (some "x") ["", "a"] (by decide)⟩
